import Mathlib

/-
Verification development for the cell-free random-access NMSE simulation
script data_fig05_barplot_cellfree.py.

The script is a NumPy Monte-Carlo computation.  It is embedded shallowly
over an arbitrary linear ordered field R (instantiable by the rationals,
so that everything index-level is executable).  The transcendental numeric
primitives supplied by NumPy (square root, the 2/3 power, base-10 log and
base-10 exponential) are not part of the repository source; they are
passed in as function parameters of the embedding, and none of the
properties proved below depend on their values.  The pseudo-random
generator seeded by np.random.seed is likewise external to the source; it
is modelled as a stream of variates (a function from draw positions to R)
together with explicit bookkeeping of the order in which the script
consumes draws.
-/

namespace CellFree

/-- The three estimator variants selected by the string flag in the script. -/
inductive Estimator
  | est1
  | est2
  | est3
deriving DecidableEq

/-- Complex numbers over the embedding field, mirroring the complex arrays
of the script componentwise. -/
structure Cx (R : Type) where
  re : R
  im : R
deriving DecidableEq

variable {R : Type} [LinearOrderedField R]

/-- Componentwise addition of complex values. -/
def Cx.add (z w : Cx R) : Cx R :=
  ⟨z.re + w.re, z.im + w.im⟩

/-- Componentwise subtraction of complex values. -/
def Cx.sub (z w : Cx R) : Cx R :=
  ⟨z.re - w.re, z.im - w.im⟩

/-- Complex multiplication. -/
def Cx.mul (z w : Cx R) : Cx R :=
  ⟨z.re * w.re - z.im * w.im, z.re * w.im + z.im * w.re⟩

/-- Complex conjugation. -/
def Cx.conj (z : Cx R) : Cx R :=
  ⟨z.re, -z.im⟩

/-- Scaling of a complex value by a real scalar. -/
def Cx.smulR (a : R) (z : Cx R) : Cx R :=
  ⟨a * z.re, a * z.im⟩

/-- Division of a complex value by a real scalar. -/
def Cx.divR (z : Cx R) (a : R) : Cx R :=
  ⟨z.re / a, z.im / a⟩

/-- Sum of the first n values of a real-valued sequence, matching a NumPy
sum over one axis. -/
def sumR (n : ℕ) (f : ℕ → R) : R :=
  ((List.range n).map f).sum

/-- Sum of the first n values of a complex-valued sequence. -/
def cxSum (n : ℕ) (f : ℕ → Cx R) : Cx R :=
  ⟨sumR n (fun i => (f i).re), sumR n (fun i => (f i).im)⟩

/-- The Python slice xs[-m:] on a list.  For m = 0 the slice -0: is the
whole list, exactly as in Python; otherwise it keeps the last m elements
(all of them when m exceeds the length). -/
def pySliceLast {α : Type} (m : ℕ) (xs : List α) : List α :=
  if m = 0 then xs else xs.drop (xs.length - m)

/-- np.argsort on the first n entries of a key: the indices 0..n-1 listed
in ascending order of their key value. -/
def argsort (key : ℕ → R) (n : ℕ) : List ℕ :=
  List.insertionSort (fun i j => key i ≤ key j) (List.range n)

/-- np.argmax on the first n entries of a key: the first index attaining
the maximum, computed by a left fold exactly as a linear scan does. -/
def pyArgmax (key : ℕ → R) (n : ℕ) : ℕ :=
  (List.range n).foldl (fun acc i => if key acc < key i then i else acc) 0

/-- Row-major flattened index for a 2-d array with second dimension d2. -/
def idx2 (d2 i j : ℕ) : ℕ :=
  i * d2 + j

/-- Row-major flattened index for a 3-d array. -/
def idx3 (d2 d3 i j k : ℕ) : ℕ :=
  (i * d2 + j) * d3 + k

/-- Row-major flattened index for a 4-d array. -/
def idx4 (d2 d3 d4 i j k m : ℕ) : ℕ :=
  ((i * d2 + j) * d3 + k) * d4 + m

/-- Row-major flattened index for a 5-d array. -/
def idx5 (d2 d3 d4 d5 i j k m q : ℕ) : ℕ :=
  (((i * d2 + j) * d3 + k) * d4 + m) * d5 + q

/-- np.linspace from a to b with num points. -/
def linspace (a b : R) (num : ℕ) (i : ℕ) : R :=
  if num ≤ 1 then a else a + (i : R) * ((b - a) / ((num : R) - 1))

/-! ### Pilot activity and the serving set (source lines 178-199) -/

/-- The thresholding assignment atilde_t[atilde_t < sigma2] = 0.0 applied
to one entry. -/
def thresholdActivity (sigma2 x : R) : R :=
  if x < sigma2 then 0 else x

/-- Pilot activity of AP l according to Eq. (8) of the script, after
thresholding: atilde_t = (1/N) * Yt_norms^2 with values below sigma2
zeroed out (lines 180-182). -/
def pilotActivity (N : ℕ) (sigma2 : R) (ytNorm : ℕ → R) (l : ℕ) : R :=
  thresholdActivity sigma2 ((1 / (N : R)) * ytNorm l ^ 2)

/-- Set of pilot-serving APs (Definition 2, lines 197-199):
Pcal = np.argsort(atilde)[-Lmax:] followed by
Pcal = np.delete(Pcal, atilde[Pcal] == 0), which removes the entries of
the slice whose activity is exactly zero. -/
def servingSet (atil : ℕ → R) (L Lmax : ℕ) : List ℕ :=
  (pySliceLast Lmax (argsort atil L)).filter (fun i => atil i ≠ 0)

/-! ### The nearby-AP set of a device (Definition 1, source lines 232-241) -/

/-- Candidate nearby set: Ccal_k = np.argsort(ql * channel_gains[ss,k,:])[-Csize:]
(line 232). -/
def neighborCandidate (ql : R) (gain : ℕ → R) (L Csize : ℕ) : List ℕ :=
  pySliceLast Csize (argsort (fun l => ql * gain l) L)

/-- Natural nearby set: checkCcal_k = enumerationL[ql * channel_gains[ss,k,:] > sigma2]
(line 235). -/
def naturalSet (ql sigma2 : R) (gain : ℕ → R) (L : ℕ) : List ℕ :=
  (List.range L).filter (fun l => sigma2 < ql * gain l)

/-- The natural set after the empty-set fallback of lines 237-238: when it
is empty it is replaced by the singleton np.argmax(ql * channel_gains). -/
def neighborFallback (ql sigma2 : R) (gain : ℕ → R) (L : ℕ) : List ℕ :=
  if (naturalSet ql sigma2 gain L).isEmpty then [pyArgmax (fun l => ql * gain l) L]
  else naturalSet ql sigma2 gain L

/-- The final nearby set of lines 240-241: the candidate is replaced by
the (fallback-adjusted) natural set whenever the candidate is strictly
larger. -/
def neighborSet (ql sigma2 : R) (gain : ℕ → R) (L Csize : ℕ) : List ℕ :=
  if (neighborFallback ql sigma2 gain L).length < (neighborCandidate ql gain L Csize).length
  then neighborFallback ql sigma2 gain L
  else neighborCandidate ql gain L Csize

/-! ### Per-device estimation (source lines 249-286) -/

/-- Pre-clamp estimate of one device: the shared constants
cte = z_k.real / sqrt(N) and num = sqrt(ql*p) * taup * gains over Ccal_k
(lines 250-251), then the branch on the selected estimator
(lines 254-276).  The numeric primitives sqrt and the elementwise 2/3
power of NumPy are passed in as functions. -/
def deviceEstimate (est : Estimator) (sqrtF rpow23 : R → R) (N : ℕ)
    (p ql sigma2 taup delta : R) (gain : ℕ → R) (Ccal : List ℕ) (zkRe : R) : R :=
  let cte := zkRe / sqrtF (N : R)
  let num := Ccal.map (fun i => sqrtF (ql * p) * taup * gain i)
  match est with
  | .est1 => (num.sum / cte) ^ 2 - sigma2
  | .est2 =>
      let num23 := num.map rpow23
      let cte2 := (num23.sum / cte) ^ 2
      (num23.map (fun x => cte2 * x - sigma2)).sum
  | .est3 =>
      let underlineCte := delta * (zkRe - sigma2) / sqrtF (N : R)
      (num.sum / underlineCte) ^ 2

/-- The quantities the script derives for one colliding device in one
trial: the clamped estimate, the own-power floor gamma and the NMSE
sample pushed into nmse_in. -/
structure DeviceOutcome (R : Type) where
  alphahat : R
  gammaVal : R
  nmseSample : R

/-- One device of the inner loop, lines 249-286: compute the pre-clamp
estimate, the own total UL power gamma = p * taup * sum of gains over
Ccal_k (line 279), clamp the estimate from below by gamma (lines 282-283)
and record the NMSE sample (line 286). -/
def deviceStep (est : Estimator) (sqrtF rpow23 : R → R) (N : ℕ)
    (p ql sigma2 taup delta : R) (gain : ℕ → R) (Ccal : List ℕ)
    (zkRe alphaTrue : R) : DeviceOutcome R :=
  let alphahat0 := deviceEstimate est sqrtF rpow23 N p ql sigma2 taup delta gain Ccal zkRe
  let gamma := p * taup * (Ccal.map gain).sum
  let alphahat := if alphahat0 < gamma then gamma else alphahat0
  ⟨alphahat, gamma, |alphahat - alphaTrue| ^ 2 / alphaTrue ^ 2⟩

/-- Statement of Estimator 1 written from the specification text: with
cte = Re(z_k)/sqrt(N) and num[i] = sqrt(ql*p) * taup * gain(k, Ccal_k[i]),
alphahat = (sum(num)/cte)^2 - sigma2. -/
def specEstimator1 (sqrtF : R → R) (N : ℕ) (p ql sigma2 taup : R)
    (gain : ℕ → R) (Ccal : List ℕ) (zkRe : R) : R :=
  ((Ccal.map (fun i => sqrtF (ql * p) * taup * gain i)).sum / (zkRe / sqrtF (N : R))) ^ 2
    - sigma2

/-! ### Precoded downlink signal (source lines 207-218) -/

/-- Precoded DL signal of the serving APs.  For est3 (lines 209-213) the
whole matrix is divided by the single scalar
den = sqrt(N * (atilde_t[ss,:,ch] - sigma2).sum()), the sum running over
all L APs; otherwise (line 218) each AP column is divided by that AP
received-signal norm.  Entry (n, j) corresponds to antenna n and the j-th
AP of Pcal. -/
def precodedSignal (est : Estimator) (sqrtF : R → R) (N L : ℕ) (ql sigma2 : R)
    (atil : ℕ → R) (ytNorm : ℕ → R) (Yt : ℕ → ℕ → Cx R) (Pcal : List ℕ)
    (n j : ℕ) : Cx R :=
  if est = Estimator.est3 then
    let den := sqrtF ((N : R) * ((List.range L).map (fun l => atil l - sigma2)).sum)
    Cx.smulR (sqrtF ql) (Cx.divR (Yt n (Pcal.getD j 0)) den)
  else
    Cx.smulR (sqrtF ql) (Cx.divR (Yt n (Pcal.getD j 0)) (ytNorm (Pcal.getD j 0)))

/-- Estimator-3 normalization written from the specification text: the
per-AP signal scaled by sqrt(ql) and divided by the single network-wide
denominator sqrt(N * sum over ALL APs of (activity - sigma2)). -/
def specPrecoderEst3 (sqrtF : R → R) (N L : ℕ) (ql sigma2 : R)
    (atil : ℕ → R) (Yt : ℕ → ℕ → Cx R) (Pcal : List ℕ) (n j : ℕ) : Cx R :=
  Cx.smulR (sqrtF ql)
    (Cx.divR (Yt n (Pcal.getD j 0))
      (sqrtF ((N : R) * ((List.range L).map (fun l => atil l - sigma2)).sum)))

/-- Default normalization written from the specification text: the per-AP
signal scaled by sqrt(ql) and divided by that AP observed received-signal
norm. -/
def specPrecoderDefault (sqrtF : R → R) (ql : R) (ytNorm : ℕ → R)
    (Yt : ℕ → ℕ → Cx R) (Pcal : List ℕ) (n j : ℕ) : Cx R :=
  Cx.smulR (sqrtF ql) (Cx.divR (Yt n (Pcal.getD j 0)) (ytNorm (Pcal.getD j 0)))

/-- Ground-truth total UL power of one trial, line 222:
alpha_true = p * taup * channel_gains[ss, :, Pcal].sum().  The fancy
index produces the (|Pcal|, collisionSize) array of gains, so the value
is the sum over the serving APs of the sum over all colliding devices. -/
def alphaTrueOf (p taup : R) (C : ℕ) (gain : ℕ → ℕ → R) (Pcal : List ℕ) : R :=
  p * taup * (Pcal.map (fun l => sumR C (fun k => gain k l))).sum

/-! ### Whole-run configuration and the stream of random draws

The script consumes np.random variates in a fixed order.  The generator
itself lives in NumPy, outside the repository; it is modelled as a stream
of variates, with the script-side bookkeeping of draw positions made
explicit.  The two lookup tables are read-only external inputs, modelled
as function-valued configuration fields. -/

/-- Run configuration: the system parameters of lines 48-114 together
with the external inputs (lookup tables) and the external numeric
primitives of NumPy. -/
structure SimConfig (R : Type) where
  L : ℕ
  N : ℕ
  p : R
  ql : R
  sigma2 : R
  taup : R
  squareLength : R
  numsetups : ℕ
  numchannel : ℕ
  collisions : List ℕ
  estimator : Estimator
  bestPair : ℕ → ℕ → ℕ × ℕ
  deltaLookup : ℕ → ℕ → ℕ → R
  sqrtF : R → R
  rpow23 : R → R
  log10 : R → R
  pow10 : R → R

/-- Largest collision size, collisions.max(), sizing the device-side
noise array eta. -/
def maxCollision (cfg : SimConfig R) : ℕ :=
  cfg.collisions.foldr max 0

/-- Number of variates of one np.random.randn call for the AP noise
array n_ of shape (numsetups, N, L, numchannel), line 139. -/
def streamCountAP (cfg : SimConfig R) : ℕ :=
  cfg.numsetups * cfg.N * cfg.L * cfg.numchannel

/-- Number of variates of one np.random.randn call for the device noise
array eta of shape (numsetups, collisions.max(), numchannel), line 142. -/
def streamCountUE (cfg : SimConfig R) : ℕ :=
  cfg.numsetups * maxCollision cfg * cfg.numchannel

/-- Number of variates consumed inside the loop body for one collision
size c: two rand calls of shape (numsetups, c) for the device locations
(line 160) and two randn calls of shape (numsetups, N, c, L, numchannel)
for the normalized fading (line 169). -/
def batchDrawCount (cfg : SimConfig R) (c : ℕ) : ℕ :=
  2 * (cfg.numsetups * c) + 2 * (cfg.numsetups * cfg.N * c * cfg.L * cfg.numchannel)

/-- Stream position at which the batch of the cs-th swept collision size
starts drawing.  The first batch starts only after the two pre-loop noise
arrays (lines 139 and 142) have consumed their draws. -/
def batchOffset (cfg : SimConfig R) : ℕ → ℕ
  | 0 => 2 * streamCountAP cfg + 2 * streamCountUE cfg
  | cs + 1 => batchOffset cfg cs + batchDrawCount cfg (cfg.collisions.getD cs 0)

/-- AP-side AWGN n_[ss, n, l, ch], line 139: drawn from stream positions
[0, 2 * streamCountAP) before the collision loop; note it does not take
a collision-size argument. -/
def apNoise (cfg : SimConfig R) (stream : ℕ → R) (ss n l ch : ℕ) : Cx R :=
  ⟨cfg.sqrtF (cfg.sigma2 / 2) * stream (idx4 cfg.N cfg.L cfg.numchannel ss n l ch),
   cfg.sqrtF (cfg.sigma2 / 2) *
     stream (streamCountAP cfg + idx4 cfg.N cfg.L cfg.numchannel ss n l ch)⟩

/-- Device-side AWGN eta[ss, k, ch], line 142: drawn from the stream
positions [2 * streamCountAP, 2 * streamCountAP + 2 * streamCountUE)
before the collision loop. -/
def ueNoise (cfg : SimConfig R) (stream : ℕ → R) (ss k ch : ℕ) : Cx R :=
  ⟨cfg.sqrtF (cfg.sigma2 / 2) *
     stream (2 * streamCountAP cfg + idx3 (maxCollision cfg) cfg.numchannel ss k ch),
   cfg.sqrtF (cfg.sigma2 / 2) *
     stream (2 * streamCountAP cfg + streamCountUE cfg
       + idx3 (maxCollision cfg) cfg.numchannel ss k ch)⟩

/-- AP grid positions of lines 98-101: APperdim = int(sqrt(L)) points per
dimension, cell-centered linspace coordinates, reshaped row-major. -/
def apPosition (cfg : SimConfig R) (m : ℕ) : Cx R :=
  let d := Nat.sqrt cfg.L
  let coord := fun i =>
    linspace (cfg.squareLength / (d : R)) cfg.squareLength d i
      - cfg.squareLength / (d : R) / 2
  ⟨coord (m % d), coord (m / d)⟩

/-- Device location UElocations[ss, k] of the cs-th batch, line 160:
squareLength * (rand + 1j * rand), drawn first in the batch. -/
def ueLocation (cfg : SimConfig R) (stream : ℕ → R) (cs ss k : ℕ) : Cx R :=
  let c := cfg.collisions.getD cs 0
  let B := batchOffset cfg cs
  ⟨cfg.squareLength * stream (B + idx2 c ss k),
   cfg.squareLength * stream (B + cfg.numsetups * c + idx2 c ss k)⟩

/-- Average channel gain of device k to AP l, lines 163-166:
distance = np.abs(UElocation - APposition), then the log-distance model
10 ** ((94.0 - 30.5 - 36.7 * log10(sqrt(distance^2 + 10^2))) / 10). -/
def channelGain (cfg : SimConfig R) (stream : ℕ → R) (cs ss k l : ℕ) : R :=
  let diff := Cx.sub (ueLocation cfg stream cs ss k) (apPosition cfg l)
  let dist := cfg.sqrtF (diff.re ^ 2 + diff.im ^ 2)
  cfg.pow10 ((94 - 30.5 - 36.7 * cfg.log10 (cfg.sqrtF (dist ^ 2 + 10 ^ 2))) / 10)

/-- Normalized fading Gnorm_[ss, n, k, l, ch] of the cs-th batch,
line 169: sqrt(1/2) * (randn + 1j * randn), drawn after the locations. -/
def gNorm (cfg : SimConfig R) (stream : ℕ → R) (cs ss n k l ch : ℕ) : Cx R :=
  let c := cfg.collisions.getD cs 0
  let B := batchOffset cfg cs + 2 * (cfg.numsetups * c)
  let sz := cfg.numsetups * cfg.N * c * cfg.L * cfg.numchannel
  ⟨cfg.sqrtF (1 / 2) * stream (B + idx5 cfg.N c cfg.L cfg.numchannel ss n k l ch),
   cfg.sqrtF (1 / 2) * stream (B + sz + idx5 cfg.N c cfg.L cfg.numchannel ss n k l ch)⟩

/-- Full channel G_[ss, n, k, l, ch], line 172: sqrt(gain) * Gnorm. -/
def channelG (cfg : SimConfig R) (stream : ℕ → R) (cs ss n k l ch : ℕ) : Cx R :=
  Cx.smulR (cfg.sqrtF (channelGain cfg stream cs ss k l)) (gNorm cfg stream cs ss n k l ch)

/-- Aggregate received UL signal Yt_[ss, n, l, ch] according to Eq. (4),
line 175: sqrt(p * taup) * sum over colliding devices of the channel,
plus the pre-loop AP noise. -/
def uplinkYt (cfg : SimConfig R) (stream : ℕ → R) (cs ss n l ch : ℕ) : Cx R :=
  Cx.add
    (Cx.smulR (cfg.sqrtF (cfg.p * cfg.taup))
      (cxSum (cfg.collisions.getD cs 0) (fun k => channelG cfg stream cs ss n k l ch)))
    (apNoise cfg stream ss n l ch)

/-- l2-norm of Yt over the antenna axis, line 178. -/
def ytNormOf (cfg : SimConfig R) (stream : ℕ → R) (cs ss l ch : ℕ) : R :=
  cfg.sqrtF (sumR cfg.N (fun n =>
    (uplinkYt cfg stream cs ss n l ch).re ^ 2 + (uplinkYt cfg stream cs ss n l ch).im ^ 2))

/-- Thresholded pilot activity of AP l in one trial, lines 180-182. -/
def activityOf (cfg : SimConfig R) (stream : ℕ → R) (cs ss ch l : ℕ) : R :=
  pilotActivity cfg.N cfg.sigma2 (fun l2 => ytNormOf cfg stream cs ss l2 ch) l

/-- Serving set Pcal of one trial, lines 197-199, with Lmax taken from
the best-pair lookup table at (collisionSize, N), line 185. -/
def servingSetOf (cfg : SimConfig R) (stream : ℕ → R) (cs ss ch : ℕ) : List ℕ :=
  servingSet (activityOf cfg stream cs ss ch) cfg.L
    (cfg.bestPair (cfg.collisions.getD cs 0) cfg.N).2

/-- Precoded DL signal Vt_ of one trial, lines 207-218. -/
def precodedOf (cfg : SimConfig R) (stream : ℕ → R) (cs ss ch : ℕ) : ℕ → ℕ → Cx R :=
  precodedSignal cfg.estimator cfg.sqrtF cfg.N cfg.L cfg.ql cfg.sigma2
    (activityOf cfg stream cs ss ch) (fun l => ytNormOf cfg stream cs ss l ch)
    (fun n l => uplinkYt cfg stream cs ss n l ch)
    (servingSetOf cfg stream cs ss ch)

/-- Ground truth alpha_true of one trial, line 222; computed once per
trial, before the loop over colliding devices. -/
def alphaTrueTrial (cfg : SimConfig R) (stream : ℕ → R) (cs ss ch : ℕ) : R :=
  alphaTrueOf cfg.p cfg.taup (cfg.collisions.getD cs 0)
    (fun k l => channelGain cfg stream cs ss k l) (servingSetOf cfg stream cs ss ch)

/-- Received DL signal z_k at device k according to Eq. (12), line 229:
sqrt(taup) * (G[:, k, Pcal, ch].conj() * Vt).sum() + eta[ss, k, ch]. -/
def downlinkZ (cfg : SimConfig R) (stream : ℕ → R) (cs ss ch k : ℕ) : Cx R :=
  Cx.add
    (Cx.smulR (cfg.sqrtF cfg.taup)
      (cxSum cfg.N (fun n =>
        cxSum (servingSetOf cfg stream cs ss ch).length (fun j =>
          Cx.mul
            (Cx.conj (channelG cfg stream cs ss n k
              ((servingSetOf cfg stream cs ss ch).getD j 0) ch))
            (precodedOf cfg stream cs ss ch n j)))))
    (ueNoise cfg stream ss k ch)

/-- Nearby set Ccal_k of device k in one setup, lines 232-241, with Csize
taken from the best-pair lookup table. -/
def neighborOf (cfg : SimConfig R) (stream : ℕ → R) (cs ss k : ℕ) : List ℕ :=
  neighborSet cfg.ql cfg.sigma2 (fun l => channelGain cfg stream cs ss k l) cfg.L
    (cfg.bestPair (cfg.collisions.getD cs 0) cfg.N).1

/-- Whole inner-loop body for one device of one trial, lines 249-286. -/
def deviceOutcome (cfg : SimConfig R) (stream : ℕ → R) (cs ss ch k : ℕ) : DeviceOutcome R :=
  deviceStep cfg.estimator cfg.sqrtF cfg.rpow23 cfg.N cfg.p cfg.ql cfg.sigma2 cfg.taup
    (cfg.deltaLookup (cfg.collisions.getD cs 0) cfg.N
      (cfg.bestPair (cfg.collisions.getD cs 0) cfg.N).2)
    (fun l => channelGain cfg stream cs ss k l)
    (neighborOf cfg stream cs ss k)
    (downlinkZ cfg stream cs ss ch k).re
    (alphaTrueTrial cfg stream cs ss ch)

/-- Per-(setup, device) NMSE after averaging out the channel
realizations, line 289. -/
def nmseMean (cfg : SimConfig R) (stream : ℕ → R) (cs ss k : ℕ) : R :=
  sumR cfg.numchannel (fun ch => (deviceOutcome cfg stream cs ss ch k).nmseSample)
    / (cfg.numchannel : R)

/-- All averaged NMSE samples of one collision size, flattened over
setups and devices. -/
def batchSamples (cfg : SimConfig R) (stream : ℕ → R) (cs : ℕ) : List R :=
  ((List.range cfg.numsetups).map (fun ss =>
    (List.range (cfg.collisions.getD cs 0)).map (fun k =>
      nmseMean cfg stream cs ss k))).flatten

/-- np.percentile with the default linear interpolation on the sorted
samples; np.median is the 50th percentile. -/
def pyPercentile [FloorRing R] (q : R) (xs : List R) : R :=
  let s := List.insertionSort (fun a b => a ≤ b) xs
  let pos := q / 100 * ((xs.length : R) - 1)
  s.getD (Int.toNat ⌊pos⌋) 0
    + (pos - (⌊pos⌋ : R)) * (s.getD (Int.toNat ⌈pos⌉) 0 - s.getD (Int.toNat ⌊pos⌋) 0)

/-- The (p25, median, p75) triple stored into nmse[:, cs], line 292. -/
def batchStats [FloorRing R] (cfg : SimConfig R) (stream : ℕ → R) (cs : ℕ) : R × R × R :=
  (pyPercentile 25 (batchSamples cfg stream cs),
   pyPercentile 50 (batchSamples cfg stream cs),
   pyPercentile 75 (batchSamples cfg stream cs))

/-- The whole simulation: one statistics triple per swept collision size;
this is the array persisted by np.savez. -/
def runSimulation [FloorRing R] (cfg : SimConfig R) (stream : ℕ → R) : List (R × R × R) :=
  (List.range cfg.collisions.length).map (batchStats cfg stream)

/-- The configuration hard-coded in the script: L = 64, N = 8, p = 100,
ql = 200/L, sigma2 = 1, taup = 5, squareLength = 400, 100 setups, 100
channel realizations, collision sizes 1..10.  The lookup tables live in
external files and the numeric primitives in NumPy; they are given
placeholder values here, and no theorem about this configuration depends
on those fields. -/
def scriptConfig : SimConfig ℚ where
  L := 64
  N := 8
  p := 100
  ql := 200 / 64
  sigma2 := 1
  taup := 5
  squareLength := 400
  numsetups := 100
  numchannel := 100
  collisions := [1, 2, 3, 4, 5, 6, 7, 8, 9, 10]
  estimator := Estimator.est3
  bestPair := fun _ _ => (1, 1)
  deltaLookup := fun _ _ _ => 1
  sqrtF := fun x => x
  rpow23 := fun x => x
  log10 := fun x => x
  pow10 := fun x => x

/-- Formalization of the reading of claim C8 under test: the AP-side
AWGN used by the batch of the cs-th collision size is drawn as part of
that batch, i.e. the stream positions [0, 2 * streamCountAP) that
produce n_ lie inside the draw window of that batch. -/
def apNoiseDrawnWithinBatch (cfg : SimConfig R) (cs : ℕ) : Prop :=
  batchOffset cfg cs ≤ 0 ∧
    2 * streamCountAP cfg ≤ batchOffset cfg cs
      + batchDrawCount cfg (cfg.collisions.getD cs 0)

/-! ### Helper lemmas -/

theorem argsort_length (key : ℕ → R) (n : ℕ) : (argsort key n).length = n := by
  rw [argsort, List.length_insertionSort, List.length_range]

theorem argsort_perm (key : ℕ → R) (n : ℕ) : (argsort key n).Perm (List.range n) :=
  List.perm_insertionSort _ _

theorem argsort_mem (key : ℕ → R) (n i : ℕ) : i ∈ argsort key n ↔ i < n := by
  rw [(argsort_perm key n).mem_iff, List.mem_range]

theorem argsort_sorted (key : ℕ → R) (n : ℕ) :
    List.Sorted (fun i j => key i ≤ key j) (argsort key n) := by
  haveI : IsTotal ℕ (fun i j => key i ≤ key j) := ⟨fun a b => le_total (key a) (key b)⟩
  haveI : IsTrans ℕ (fun i j => key i ≤ key j) :=
    ⟨fun _ _ _ hab hbc => le_trans hab hbc⟩
  exact List.sorted_insertionSort _ _

theorem pySliceLast_eq_drop {α : Type} (m : ℕ) (hm : m ≠ 0) (xs : List α) :
    pySliceLast m xs = xs.drop (xs.length - m) := by
  simp [pySliceLast, hm]

theorem pySliceLast_subset {α : Type} (m : ℕ) (xs : List α) : pySliceLast m xs ⊆ xs := by
  unfold pySliceLast
  split
  · exact fun a h => h
  · exact List.drop_subset _ _

theorem pySliceLast_length (m : ℕ) (hm : m ≠ 0) {α : Type} (xs : List α) :
    (pySliceLast m xs).length = xs.length - (xs.length - m) := by
  rw [pySliceLast_eq_drop m hm, List.length_drop]

/-- In a sorted list, every element of the prefix is related to every
element of the suffix. -/
theorem sorted_take_le_drop {α : Type} {r : α → α → Prop} {l : List α}
    (h : List.Sorted r l) (k : ℕ) {a b : α}
    (ha : a ∈ l.take k) (hb : b ∈ l.drop k) : r a b := by
  have hp : List.Pairwise r l := h
  exact hp.rel_of_mem_take_of_mem_drop ha hb

/-- The left fold implementing np.argmax dominates its accumulator and
every scanned element. -/
theorem argmaxFold_le (key : ℕ → R) (l : List ℕ) (a : ℕ) :
    key a ≤ key (l.foldl (fun acc i => if key acc < key i then i else acc) a) ∧
      ∀ j ∈ l, key j ≤ key (l.foldl (fun acc i => if key acc < key i then i else acc) a) := by
  induction l generalizing a with
  | nil =>
      exact ⟨le_rfl, fun j hj => absurd hj (List.not_mem_nil j)⟩
  | cons x xs ih =>
      simp only [List.foldl_cons]
      have hstep : key a ≤ key (if key a < key x then x else a) ∧
          key x ≤ key (if key a < key x then x else a) := by
        by_cases h : key a < key x
        · rw [if_pos h]; exact ⟨h.le, le_rfl⟩
        · rw [if_neg h]; exact ⟨le_rfl, le_of_not_lt h⟩
      refine ⟨le_trans hstep.1 (ih _).1, ?_⟩
      intro j hj
      rcases List.mem_cons.mp hj with rfl | hj2
      · exact le_trans hstep.2 (ih _).1
      · exact (ih _).2 j hj2

theorem pyArgmax_le (key : ℕ → R) (n j : ℕ) (hj : j < n) :
    key j ≤ key (pyArgmax key n) :=
  (argmaxFold_le key (List.range n) 0).2 j (List.mem_range.mpr hj)

/-- Membership in the serving set gives nonzero activity and membership
in the argsort slice. -/
theorem servingSet_mem (atil : ℕ → R) (L Lmax : ℕ) {i : ℕ}
    (hi : i ∈ servingSet atil L Lmax) :
    atil i ≠ 0 ∧ i ∈ pySliceLast Lmax (argsort atil L) := by
  rw [servingSet, List.mem_filter] at hi
  exact ⟨by simpa using hi.2, hi.1⟩

/-- Indices in the serving set are valid AP indices. -/
theorem servingSet_mem_lt (atil : ℕ → R) (L Lmax : ℕ) {i : ℕ}
    (hi : i ∈ servingSet atil L Lmax) : i < L :=
  (argsort_mem atil L i).mp (pySliceLast_subset _ _ (servingSet_mem atil L Lmax hi).2)

/-- Sum exchange for nested list sums. -/
theorem sum_map_add {α : Type} (f g : α → R) (l : List α) :
    (l.map (fun x => f x + g x)).sum = (l.map f).sum + (l.map g).sum := by
  induction l with
  | nil => simp
  | cons x xs ih => simp [ih]; ring

theorem sum_swap_list {α : Type} (f : ℕ → α → R) (C : ℕ) (l : List α) :
    (l.map (fun x => sumR C (fun k => f k x))).sum
      = sumR C (fun k => (l.map (fun x => f k x)).sum) := by
  induction l with
  | nil => simp [sumR]
  | cons x xs ih =>
      rw [List.map_cons, List.sum_cons, ih]
      simp only [sumR, List.map_cons, List.sum_cons]
      rw [← sum_map_add]

/-! ### Claim theorems -/

/-- Claim C1: for every trial (any estimator, any inputs), the gamma of
lines 279 is p * taup * the sum of channel gains over Ccal_k; the
alphahat recorded into the NMSE statistics is at least gamma — whenever
the computed estimate is below gamma it is replaced by gamma — and the
recorded NMSE sample is computed from that clamped value. -/
theorem claim_C1 (est : Estimator) (sqrtF rpow23 : R → R) (N : ℕ)
    (p ql sigma2 taup delta : R) (gain : ℕ → R) (Ccal : List ℕ)
    (zkRe alphaTrue : R) :
    (deviceStep est sqrtF rpow23 N p ql sigma2 taup delta gain Ccal zkRe alphaTrue).gammaVal
        = p * taup * (Ccal.map gain).sum ∧
    (deviceStep est sqrtF rpow23 N p ql sigma2 taup delta gain Ccal zkRe alphaTrue).gammaVal
        ≤ (deviceStep est sqrtF rpow23 N p ql sigma2 taup delta gain Ccal zkRe alphaTrue).alphahat ∧
    (deviceEstimate est sqrtF rpow23 N p ql sigma2 taup delta gain Ccal zkRe
        < p * taup * (Ccal.map gain).sum →
      (deviceStep est sqrtF rpow23 N p ql sigma2 taup delta gain Ccal zkRe alphaTrue).alphahat
        = p * taup * (Ccal.map gain).sum) ∧
    (deviceStep est sqrtF rpow23 N p ql sigma2 taup delta gain Ccal zkRe alphaTrue).nmseSample
        = |(deviceStep est sqrtF rpow23 N p ql sigma2 taup delta gain Ccal zkRe alphaTrue).alphahat
            - alphaTrue| ^ 2 / alphaTrue ^ 2 := by
  have halpha : (deviceStep est sqrtF rpow23 N p ql sigma2 taup delta gain Ccal zkRe alphaTrue).alphahat
      = if deviceEstimate est sqrtF rpow23 N p ql sigma2 taup delta gain Ccal zkRe
            < p * taup * (Ccal.map gain).sum
        then p * taup * (Ccal.map gain).sum
        else deviceEstimate est sqrtF rpow23 N p ql sigma2 taup delta gain Ccal zkRe := rfl
  refine ⟨rfl, ?_, ?_, rfl⟩
  · rw [halpha]
    show p * taup * (Ccal.map gain).sum ≤ _
    split
    · exact le_rfl
    · exact le_of_not_lt (by assumption)
  · intro h
    rw [halpha, if_pos h]

/-- Claim C4: the pre-clamp Estimator-1 value computed by lines 250-257
coincides with the closed form of the specification,
(sum(num)/cte)^2 - sigma2 with cte = Re(z_k)/sqrt(N) and
num[i] = sqrt(ql*p) * taup * gain(k, Ccal_k[i]). -/
theorem claim_C4 (sqrtF rpow23 : R → R) (N : ℕ) (p ql sigma2 taup delta : R)
    (gain : ℕ → R) (Ccal : List ℕ) (zkRe : R) :
    deviceEstimate Estimator.est1 sqrtF rpow23 N p ql sigma2 taup delta gain Ccal zkRe
      = specEstimator1 sqrtF N p ql sigma2 taup gain Ccal zkRe := rfl

/-- Claim C5: under estimator 3 the precoded DL signal divides every
serving-AP column by the single network-wide scalar
sqrt(N * sum over ALL L APs of (activity - sigma2)), while under
estimators 1 and 2 each serving-AP column is divided by that AP own
received-signal norm. -/
theorem claim_C5 (sqrtF : R → R) (N L : ℕ) (ql sigma2 : R) (atil ytNorm : ℕ → R)
    (Yt : ℕ → ℕ → Cx R) (Pcal : List ℕ) :
    (∀ n j, precodedSignal Estimator.est3 sqrtF N L ql sigma2 atil ytNorm Yt Pcal n j
        = specPrecoderEst3 sqrtF N L ql sigma2 atil Yt Pcal n j) ∧
    (∀ est : Estimator, est ≠ Estimator.est3 →
      ∀ n j, precodedSignal est sqrtF N L ql sigma2 atil ytNorm Yt Pcal n j
        = specPrecoderDefault sqrtF ql ytNorm Yt Pcal n j) := by
  constructor
  · intro n j
    simp [precodedSignal, specPrecoderEst3]
  · intro est hest n j
    simp [precodedSignal, specPrecoderDefault, hest]

/-- Claim C6: within one trial the ground truth of line 222 equals
p * taup * the joint sum of channel gains over all colliding devices and
all serving APs, and the NMSE sample recorded for every colliding device
k of that trial is measured against that same per-trial value. -/
theorem claim_C6 (cfg : SimConfig R) (stream : ℕ → R) (cs ss ch : ℕ) :
    alphaTrueTrial cfg stream cs ss ch
        = cfg.p * cfg.taup * sumR (cfg.collisions.getD cs 0) (fun k =>
            ((servingSetOf cfg stream cs ss ch).map
              (fun l => channelGain cfg stream cs ss k l)).sum) ∧
    ∀ k, (deviceOutcome cfg stream cs ss ch k).nmseSample
        = |(deviceOutcome cfg stream cs ss ch k).alphahat
            - alphaTrueTrial cfg stream cs ss ch| ^ 2
          / alphaTrueTrial cfg stream cs ss ch ^ 2 := by
  constructor
  · rw [alphaTrueTrial, alphaTrueOf, sum_swap_list]
  · intro k
    rfl

/-- Claim C10: after the thresholding of line 182 every per-AP activity
is either exactly zero or at least sigma2, never strictly between, and
therefore every AP kept in the serving set has activity at least the
noise floor sigma2. -/
theorem claim_C10 (N : ℕ) (sigma2 : R) (ytNorm : ℕ → R) (L Lmax : ℕ) :
    (∀ l, pilotActivity N sigma2 ytNorm l = 0 ∨ sigma2 ≤ pilotActivity N sigma2 ytNorm l) ∧
    (∀ l, ¬(0 < pilotActivity N sigma2 ytNorm l ∧ pilotActivity N sigma2 ytNorm l < sigma2)) ∧
    (∀ l ∈ servingSet (pilotActivity N sigma2 ytNorm) L Lmax,
      sigma2 ≤ pilotActivity N sigma2 ytNorm l) := by
  have hdich : ∀ l, pilotActivity N sigma2 ytNorm l = 0
      ∨ sigma2 ≤ pilotActivity N sigma2 ytNorm l := by
    intro l
    rw [pilotActivity, thresholdActivity]
    split
    · exact Or.inl rfl
    · exact Or.inr (le_of_not_lt (by assumption))
  refine ⟨hdich, ?_, ?_⟩
  · intro l hl
    rcases hdich l with h | h
    · rw [h] at hl
      exact lt_irrefl 0 hl.1
    · exact absurd hl.2 (not_lt.mpr h)
  · intro l hl
    rcases hdich l with h | h
    · exact absurd h (servingSet_mem _ _ _ hl).1
    · exact h

/-- Claim C2: with a positive Lmax from the lookup table, the serving set
of lines 197-199 keeps at most Lmax APs, contains no AP of zero activity,
is empty when all L activities are zero, and every kept AP has activity
at least that of every AP left outside the top-Lmax slice. -/
theorem claim_C2 (atil : ℕ → R) (L Lmax : ℕ) (hLmax : 0 < Lmax) :
    (servingSet atil L Lmax).length ≤ Lmax ∧
    (∀ i ∈ servingSet atil L Lmax, atil i ≠ 0) ∧
    ((∀ i, i < L → atil i = 0) → servingSet atil L Lmax = []) ∧
    (∀ i ∈ servingSet atil L Lmax, ∀ j, j < L →
      j ∉ pySliceLast Lmax (argsort atil L) → atil j ≤ atil i) := by
  refine ⟨?_, ?_, ?_, ?_⟩
  · calc (servingSet atil L Lmax).length
        ≤ (pySliceLast Lmax (argsort atil L)).length := List.length_filter_le _ _
      _ ≤ Lmax := by
          rw [pySliceLast_length Lmax hLmax.ne' _]
          omega
  · exact fun i hi => (servingSet_mem atil L Lmax hi).1
  · intro hz
    rw [List.eq_nil_iff_forall_not_mem]
    intro i hi
    exact (servingSet_mem atil L Lmax hi).1 (hz i (servingSet_mem_lt atil L Lmax hi))
  · intro i hi j hjL hjslice
    have hisl := (servingSet_mem atil L Lmax hi).2
    rw [pySliceLast_eq_drop Lmax hLmax.ne'] at hisl hjslice
    have hjarg : j ∈ argsort atil L := (argsort_mem atil L j).mpr hjL
    rw [← List.take_append_drop ((argsort atil L).length - Lmax) (argsort atil L)] at hjarg
    rcases List.mem_append.mp hjarg with hjtake | hjdrop
    · exact sorted_take_le_drop (argsort_sorted atil L) _ hjtake hisl
    · exact absurd hjdrop hjslice

/-- Witness for claim C2 at a concrete input: four APs, two of them
active, Lmax = 2. -/
theorem claim_C2_witness :
    (0 : ℕ) < 2 ∧
      (servingSet (fun i => if i ≤ 1 then (3 : ℚ) else 0) 4 2).length ≤ 2 :=
  ⟨by decide, (claim_C2 (fun i => if i ≤ 1 then (3 : ℚ) else 0) 4 2 (by decide)).1⟩

/-- Claim C3: with positive L and Csize, the nearby set of lines 232-241
always has between 1 and Csize APs; it is the top-Csize candidate,
replaced by the natural set exactly when the natural set is the strictly
smaller one, and when the natural set is empty the result is a single AP
of maximal local gain. -/
theorem claim_C3 (ql sigma2 : R) (gain : ℕ → R) (L Csize : ℕ)
    (hL : 0 < L) (hC : 0 < Csize) :
    1 ≤ (neighborSet ql sigma2 gain L Csize).length ∧
    (neighborSet ql sigma2 gain L Csize).length ≤ Csize ∧
    (naturalSet ql sigma2 gain L ≠ [] →
      (naturalSet ql sigma2 gain L).length < (neighborCandidate ql gain L Csize).length →
      neighborSet ql sigma2 gain L Csize = naturalSet ql sigma2 gain L) ∧
    ((neighborCandidate ql gain L Csize).length ≤ (neighborFallback ql sigma2 gain L).length →
      neighborSet ql sigma2 gain L Csize = neighborCandidate ql gain L Csize) ∧
    (naturalSet ql sigma2 gain L = [] →
      ∃ i, neighborSet ql sigma2 gain L Csize = [i] ∧
        ∀ j, j < L → ql * gain j ≤ ql * gain i) := by
  have hcand : (neighborCandidate ql gain L Csize).length = L - (L - Csize) := by
    rw [neighborCandidate, pySliceLast_length Csize hC.ne', argsort_length]
  have hcand1 : 1 ≤ (neighborCandidate ql gain L Csize).length := by
    rw [hcand]; omega
  have hcandC : (neighborCandidate ql gain L Csize).length ≤ Csize := by
    rw [hcand]; omega
  have hfb1 : 1 ≤ (neighborFallback ql sigma2 gain L).length := by
    rw [neighborFallback]
    split
    · simp
    · rename_i h
      refine List.length_pos.mpr ?_
      intro hnil
      exact h (by simp [hnil])
  have hnsdef : neighborSet ql sigma2 gain L Csize =
      if (neighborFallback ql sigma2 gain L).length
          < (neighborCandidate ql gain L Csize).length
      then neighborFallback ql sigma2 gain L
      else neighborCandidate ql gain L Csize := rfl
  refine ⟨?_, ?_, ?_, ?_, ?_⟩
  · rw [hnsdef]
    split
    · exact hfb1
    · exact hcand1
  · rw [hnsdef]
    split
    · rename_i hlt
      exact le_trans hlt.le hcandC
    · exact hcandC
  · intro hne hlt
    have hfb_eq : neighborFallback ql sigma2 gain L = naturalSet ql sigma2 gain L := by
      rw [neighborFallback, if_neg]
      intro hemp
      exact hne (by simpa using hemp)
    rw [hnsdef, hfb_eq, if_pos hlt]
  · intro hle
    rw [hnsdef, if_neg (not_lt.mpr hle)]
  · intro hnat
    have hfb_eq : neighborFallback ql sigma2 gain L
        = [pyArgmax (fun l => ql * gain l) L] := by
      rw [neighborFallback, if_pos (by simp [hnat])]
    by_cases hcase : (neighborFallback ql sigma2 gain L).length
        < (neighborCandidate ql gain L Csize).length
    · refine ⟨pyArgmax (fun l => ql * gain l) L, ?_, ?_⟩
      · rw [hnsdef, if_pos hcase, hfb_eq]
      · intro j hj
        exact pyArgmax_le (fun l => ql * gain l) L j hj
    · have hc_le : (neighborCandidate ql gain L Csize).length ≤ 1 := by
        have := not_lt.mp hcase
        rw [hfb_eq] at this
        simpa using this
      obtain ⟨i, hi⟩ := List.length_eq_one.mp (le_antisymm hc_le hcand1)
      refine ⟨i, ?_, ?_⟩
      · rw [hnsdef, if_neg hcase, hi]
      · intro j hjL
        have hidrop : i ∈ (argsort (fun l => ql * gain l) L).drop
            ((argsort (fun l => ql * gain l) L).length - Csize) := by
          have hmem : i ∈ neighborCandidate ql gain L Csize := by
            rw [hi]
            exact List.mem_singleton_self i
          rwa [neighborCandidate, pySliceLast_eq_drop Csize hC.ne'] at hmem
        have hjarg : j ∈ argsort (fun l => ql * gain l) L :=
          (argsort_mem _ L j).mpr hjL
        rw [← List.take_append_drop ((argsort (fun l => ql * gain l) L).length - Csize)
          (argsort (fun l => ql * gain l) L)] at hjarg
        rcases List.mem_append.mp hjarg with hjtake | hjdrop
        · exact sorted_take_le_drop (argsort_sorted _ L) _ hjtake hidrop
        · have hji : j ∈ neighborCandidate ql gain L Csize := by
            rw [neighborCandidate, pySliceLast_eq_drop Csize hC.ne']
            exact hjdrop
          rw [hi, List.mem_singleton] at hji
          rw [hji]

/-- Witness for claim C3 at a concrete input: two APs, Csize = 1, gains
below the noise floor so the natural set is empty. -/
theorem claim_C3_witness :
    (0 : ℕ) < 2 ∧ (0 : ℕ) < 1 ∧
      1 ≤ (neighborSet (1 : ℚ) 1 (fun l => (l : ℚ) / 4) 2 1).length :=
  ⟨by decide, by decide,
    (claim_C3 (1 : ℚ) 1 (fun l => (l : ℚ) / 4) 2 1 (by decide) (by decide)).1⟩

/-- Claim C8 counterexample: at the configuration hard-coded in the
script, the AP-side AWGN used by the first batch (collision size 1) is
NOT drawn as part of that batch — the noise arrays are generated at
lines 138-142, before the collision-size loop starting at line 146, so
their draw positions precede the draw window of every batch. -/
theorem claim_C8_counterexample : ¬ apNoiseDrawnWithinBatch scriptConfig 0 := by
  intro h
  have h0 := h.1
  norm_num [apNoiseDrawnWithinBatch, batchOffset, streamCountAP, streamCountUE,
    maxCollision, scriptConfig] at h0

/-- Claim C8 amended: the AWGN realizations at the APs and at the devices
are drawn once, before the collision-size loop — their stream positions
precede the draw window of every batch — and every batch reuses those
same realizations: the noise summand of the uplink observation is the
cs-independent term apNoise, and the noise summand of the downlink
observation is the cs-independent term ueNoise; each batch draws only its
own device locations and fading. -/
theorem claim_C8_amended_thm (cfg : SimConfig R) :
    (∀ cs, 2 * streamCountAP cfg + 2 * streamCountUE cfg ≤ batchOffset cfg cs) ∧
    (∀ (stream : ℕ → R) cs ss n l ch, uplinkYt cfg stream cs ss n l ch
        = Cx.add
            (Cx.smulR (cfg.sqrtF (cfg.p * cfg.taup))
              (cxSum (cfg.collisions.getD cs 0)
                (fun k => channelG cfg stream cs ss n k l ch)))
            (apNoise cfg stream ss n l ch)) ∧
    (∀ (stream : ℕ → R) cs ss ch k, downlinkZ cfg stream cs ss ch k
        = Cx.add
            (Cx.smulR (cfg.sqrtF cfg.taup)
              (cxSum cfg.N (fun n =>
                cxSum (servingSetOf cfg stream cs ss ch).length (fun j =>
                  Cx.mul
                    (Cx.conj (channelG cfg stream cs ss n k
                      ((servingSetOf cfg stream cs ss ch).getD j 0) ch))
                    (precodedOf cfg stream cs ss ch n j)))))
            (ueNoise cfg stream ss k ch)) := by
  refine ⟨?_, fun _ _ _ _ _ _ => rfl, fun _ _ _ _ _ => rfl⟩
  intro cs
  induction cs with
  | zero => exact le_rfl
  | succ m ih => exact le_trans ih (Nat.le_add_right _ _)

/-- Claim C9: the whole simulation output is a pure function of the
configuration and of the variate stream produced by the seeded
generator; two runs with the same seed (hence the same stream, for any
generator) and the same configuration produce identical NMSE statistics. -/
theorem claim_C9 [FloorRing R] (cfg : SimConfig R) (prng : ℕ → ℕ → R)
    (seed1 seed2 : ℕ) (h : seed1 = seed2) :
    runSimulation cfg (prng seed1) = runSimulation cfg (prng seed2) := by
  rw [h]

/-- Witness for claim C9: the script configuration with seed 42 twice. -/
theorem claim_C9_witness :
    runSimulation scriptConfig ((fun _ _ => (0 : ℚ)) 42)
      = runSimulation scriptConfig ((fun _ _ => (0 : ℚ)) 42) :=
  claim_C9 scriptConfig (fun _ _ => (0 : ℚ)) 42 42 rfl

end CellFree
